import Mathlib

/-!
Shallow embedding of the httpparms package: a request-decoding helper that
loads HTTP query / form / JSON-body parameters into a caller-supplied record
and optionally validates it, plus parameter-name extraction from errors.

Two variants exist in the repository and both are embedded:
* the package-level functions backed by a process-wide form decoder
  (`schemaDecode`, `ParseJSON`, `ParameterFromErr`, `ParameterError`), and
* the `Parser` value with injected Form-Decode / JSON-Unmarshal capabilities
  (`Parser.ParseQuery`, `Parser.ParseQueryForm`, `Parser.ParseJSON`,
  `Parser.ParseQueryJSON`).

Mutation of the target record is embedded by explicit state passing: a Go
function that may write into `dst` and return an `error` becomes a Lean
function from the old state to the new state paired with an optional error.
Each parse operation additionally records a trace of the externally visible
steps it performs (form parse, decoder invocation, body read, JSON
unmarshal, validation), so that ordering and invocation-count properties
can be stated.
-/

set_option autoImplicit false

namespace Httpparms

/-- The shape of `url.Values` / `map[string][]string`: a multi-valued
string mapping, embedded as an association list. -/
abbrev Values : Type := List (String × List String)

/-- Go error values relevant to the package, as a tree. Each constructor
stands for one dynamic Go type:
* `basic` — a plain error (`errors.New`, `io.EOF`, ...), no capabilities;
* `parmErr` — an error whose dynamic type has a `Parameter() string` method;
* `parmsErr` — an error whose dynamic type has a `Parameters() []string` method;
* `wrap` — a `fmt.Errorf` error wrapping a list of children (`Unwrap`);
* `parameterError` — the concrete `ParameterError` struct value, holding the
  implicated parameter name and the wrapped underlying error;
* `ptrParameterError` — a `*ParameterError` pointer value (a distinct
  dynamic type, so the `err.(ParameterError)` assertion does not match it);
* `schemaConversion` — a `schema.ConversionError` with its field key;
* `schemaMulti` — a `schema.MultiError` aggregating several errors. -/
inductive GoError : Type where
  | basic (msg : String)
  | parmErr (parm : String)
  | parmsErr (parms : List String)
  | wrap (msg : String) (errs : List GoError)
  | parameterError (parameter : String) (err : GoError)
  | ptrParameterError (parameter : String) (err : GoError)
  | schemaConversion (key : String)
  | schemaMulti (errs : List GoError)

/-- The configuration error returned when form decoding is requested from a
`Parser` whose `Form` capability is nil: `errors.New("httpparms: no form decoder")`. -/
def errNoFormDecoder : GoError := .basic "httpparms: no form decoder"

/-- `FormDecoder` is the function signature of a function that decodes
values from `vals` into `v`; the embedding passes the target state
explicitly and returns the new state with the optional error. -/
abbrev FormDecoder (σ : Type) : Type := σ → Values → σ × Option GoError

/-- `JSONUnmarshaler` is the function signature of a function that
unmarshals JSON from `data` to `v`, with the target state passed
explicitly. -/
abbrev JSONUnmarshaler (σ : Type) : Type := String → σ → σ × Option GoError

/-- Externally visible steps a parse operation performs, recorded in order:
triggering the request's form parse, invoking the Form-Decode capability on
a given value set, reading the request body, invoking the JSON unmarshaler
on a given body, and invoking the target's `Validate` at a given state. -/
inductive Event (σ : Type) : Type where
  | parseForm
  | formDecode (vals : Values)
  | bodyRead
  | jsonUnmarshal (body : String)
  | validate (state : σ)

/-- Result of one parse operation: the final target state, the returned
error (`none` embeds Go's nil error), and the trace of performed steps. -/
structure ParseResult (σ : Type) : Type where
  state : σ
  err : Option GoError
  trace : List (Event σ)

/-- The incoming request, restricted to what the package reads:
the URL query values; the outcome of `r.ParseForm()` (on success, the
merged `r.Form` values); the outcome of reading the whole body. -/
structure Request : Type where
  query : Values
  parseForm : Except GoError Values
  body : Except GoError String

/-- The common tail `if val, ok := dst.(Validator); ok { return val.Validate() }`:
if the target implements `Validator` (embedded as an optional validation
function), invoke it on the current state and return its error. -/
def finishValidate {σ : Type} (validate : Option (σ → Option GoError)) (dst : σ)
    (tr : List (Event σ)) : ParseResult σ :=
  match validate with
  | some v => ⟨dst, v dst, tr ++ [.validate dst]⟩
  | none => ⟨dst, none, tr⟩

/-- Parser decodes request parameters into a struct and validates the
values if the struct implements Validator. `Form` and `JSON` are the two
injected capabilities; either may be absent (Go nil).

The `ParametersExtractor` field is Modelled from the spec: the fallback
error-to-parameter-names extraction function of the Error Introspector is
referenced by `TestParametersFromErr` but its declaration is not among the
sources; per the spec it is an optional injected `(error) -> names`
function used only when no error in the chain exposes a parameter-name
capability. -/
structure Parser (σ : Type) : Type where
  Form : Option (FormDecoder σ)
  JSON : Option (JSONUnmarshaler σ)
  ParametersExtractor : Option (GoError → List String)

/-- `Parser.schemaDecode`: fails with the no-form-decoder configuration
error when `Form` is nil, otherwise applies the injected Form-Decode
capability. -/
def Parser.schemaDecode {σ : Type} (p : Parser σ) (dst : σ) (vals : Values) :
    ParseResult σ :=
  match p.Form with
  | none => ⟨dst, some errNoFormDecoder, []⟩
  | some f =>
    match f dst vals with
    | (dst1, e) => ⟨dst1, e, [.formDecode vals]⟩

/-- `Parser.ParseQueryForm`: triggers `r.ParseForm()`, decodes the merged
form values via `schemaDecode`, then validates. -/
def Parser.ParseQueryForm {σ : Type} (p : Parser σ)
    (validate : Option (σ → Option GoError)) (r : Request) (dst : σ) :
    ParseResult σ :=
  match r.parseForm with
  | .error e => ⟨dst, some e, [.parseForm]⟩
  | .ok form =>
    match p.schemaDecode dst form with
    | ⟨dst1, some e, tr⟩ => ⟨dst1, some e, .parseForm :: tr⟩
    | ⟨dst1, none, tr⟩ => finishValidate validate dst1 (.parseForm :: tr)

/-- `Parser.ParseJSON`: reads the whole body; on a non-empty body
unmarshals it with the injected `JSON` capability, defaulting to the
standard library's `json.Unmarshal` (passed in as `stdJSON`, since the Go
code closes over that global); then validates. An empty body skips
unmarshaling. -/
def Parser.ParseJSON {σ : Type} (stdJSON : JSONUnmarshaler σ) (p : Parser σ)
    (validate : Option (σ → Option GoError)) (r : Request) (dst : σ) :
    ParseResult σ :=
  match r.body with
  | .error e => ⟨dst, some e, [.bodyRead]⟩
  | .ok b =>
    if b.length > 0 then
      match (p.JSON.getD stdJSON) b dst with
      | (dst1, some e) => ⟨dst1, some e, [.bodyRead, .jsonUnmarshal b]⟩
      | (dst1, none) => finishValidate validate dst1 [.bodyRead, .jsonUnmarshal b]
    else
      finishValidate validate dst [.bodyRead]

/-- `Parser.ParseQueryJSON`: decodes the URL query values via
`schemaDecode` first, then runs `ParseJSON` on the same target. -/
def Parser.ParseQueryJSON {σ : Type} (stdJSON : JSONUnmarshaler σ) (p : Parser σ)
    (validate : Option (σ → Option GoError)) (r : Request) (dst : σ) :
    ParseResult σ :=
  match p.schemaDecode dst r.query with
  | ⟨dst1, some e, tr⟩ => ⟨dst1, some e, tr⟩
  | ⟨dst1, none, tr⟩ =>
    match p.ParseJSON stdJSON validate r dst1 with
    | ⟨dst2, e2, tr2⟩ => ⟨dst2, e2, tr ++ tr2⟩

/-- `Parser.ParseQuery`: decodes the URL query values via `schemaDecode`,
then validates. -/
def Parser.ParseQuery {σ : Type} (p : Parser σ)
    (validate : Option (σ → Option GoError)) (r : Request) (dst : σ) :
    ParseResult σ :=
  match p.schemaDecode dst r.query with
  | ⟨dst1, some e, tr⟩ => ⟨dst1, some e, tr⟩
  | ⟨dst1, none, tr⟩ => finishValidate validate dst1 tr

/-- `ParameterFromErr` (package-level variant) returns the parameter name
that caused the error if err is a `ParameterError`, or an empty string
otherwise: a direct type assertion on the concrete value type, with no
unwrapping. -/
def ParameterFromErr : Option GoError → String
  | some (.parameterError p _) => p
  | _ => ""

/-- The scan inside the `schema.MultiError` branch of the package-level
`schemaDecode`: the key of the first element that is a
`schema.ConversionError`, if any. -/
def firstConversionKey : List GoError → Option String
  | [] => none
  | .schemaConversion k :: _ => some k
  | _ :: es => firstConversionKey es

/-- Package-level `schemaDecode` (backed by the process-wide gorilla
decoder, passed in as `formDecoder`): on a `schema.ConversionError` it
returns a `ParameterError` carrying that error's key; on a
`schema.MultiError` it returns a `ParameterError` carrying the key of the
first contained `ConversionError` and wrapping the whole `MultiError`;
any other error is returned as is. -/
def schemaDecode {σ : Type} (formDecoder : FormDecoder σ) (vals : Values)
    (dst : σ) : σ × Option GoError :=
  match formDecoder dst vals with
  | (dst1, none) => (dst1, none)
  | (dst1, some err) =>
    match err with
    | .schemaConversion k => (dst1, some (.parameterError k (.schemaConversion k)))
    | .schemaMulti es =>
      match firstConversionKey es with
      | some k => (dst1, some (.parameterError k (.schemaMulti es)))
      | none => (dst1, some (.schemaMulti es))
    | e => (dst1, some e)

/-- Package-level `ParseJSON`: reads the whole body; a non-empty body is
unmarshaled with the standard library's `json.Unmarshal` (passed in as
`stdJSON`); then validates. An empty body skips unmarshaling. -/
def ParseJSON {σ : Type} (stdJSON : JSONUnmarshaler σ)
    (validate : Option (σ → Option GoError)) (r : Request) (dst : σ) :
    ParseResult σ :=
  match r.body with
  | .error e => ⟨dst, some e, [.bodyRead]⟩
  | .ok b =>
    if b.length > 0 then
      match stdJSON b dst with
      | (dst1, some e) => ⟨dst1, some e, [.bodyRead, .jsonUnmarshal b]⟩
      | (dst1, none) => finishValidate validate dst1 [.bodyRead, .jsonUnmarshal b]
    else
      finishValidate validate dst [.bodyRead]

mutual

/-- Modelled from the spec: the first error in the wrapping tree (pre-order,
an error's wrapped children before later siblings) exposing a
`Parameters() -> names` capability, and its names. The implementation of
the Error Introspector is not among the sources; only `TestParametersFromErr`
exercises it. Children are reachable only through the unwrap capability,
which among the embedded dynamic types only `wrap` provides. -/
def findParms : GoError → Option (List String)
  | .parmsErr ps => some ps
  | .wrap _ es => findParmsList es
  | _ => none

/-- Modelled from the spec: `findParms` over a list of sibling children,
left to right. -/
def findParmsList : List GoError → Option (List String)
  | [] => none
  | e :: es =>
    match findParms e with
    | some r => some r
    | none => findParmsList es

end

mutual

/-- Modelled from the spec: the first error in the wrapping tree (same
traversal as `findParms`) exposing a single-name `Parameter() -> name`
capability, and its name. -/
def findParm : GoError → Option String
  | .parmErr s => some s
  | .wrap _ es => findParmList es
  | _ => none

/-- Modelled from the spec: `findParm` over a list of sibling children,
left to right. -/
def findParmList : List GoError → Option String
  | [] => none
  | e :: es =>
    match findParm e with
    | some r => some r
    | none => findParmList es

end

/-- Byte-wise (code-point-wise) lexicographic order on character lists,
used to embed Go's string sort. -/
def strDataLe : List Char → List Char → Bool
  | [], _ => true
  | _ :: _, [] => false
  | a :: as, b :: bs => if a = b then strDataLe as bs else decide (a ≤ b)

/-- Lexicographic order on strings. -/
def strLe (a b : String) : Bool := strDataLe a.data b.data

/-- Modelled from the spec: deduplicate the collected names and sort them
for deterministic output. -/
def dedupSort (ps : List String) : List String :=
  List.insertionSort (fun a b => strLe a b) ps.dedup

/-- `Parser.ParametersFromErr`, Modelled from the spec: the Error
Introspector operation itself is not among the sources (only
`TestParametersFromErr` is). Per the spec: nil returns empty; otherwise
the first tree node with a `Parameters` capability wins and its names are
returned deduplicated and sorted; otherwise the first node with a
`Parameter` capability yields a one-element result (the test pins that an
empty name yields an empty result); otherwise the injected fallback
extractor, if any, is applied to the original error and its result
returned verbatim; otherwise empty. -/
def Parser.ParametersFromErr {σ : Type} (p : Parser σ) (err : Option GoError) :
    List String :=
  match err with
  | none => []
  | some e =>
    match findParms e with
    | some ps => dedupSort ps
    | none =>
      match findParm e with
      | some s => if s = "" then [] else [s]
      | none =>
        match p.ParametersExtractor with
        | some fn => fn e
        | none => []

/-- Recognizer for validation events in a trace. -/
def isValidateEv {σ : Type} : Event σ → Bool
  | .validate _ => true
  | _ => false

/-- Number of validation invocations recorded in a trace. -/
def validateCount {σ : Type} (tr : List (Event σ)) : Nat :=
  tr.countP (fun ev => isValidateEv ev)

/-- A trace validates at most once, and only as its very last step:
either it records no validation at all, or it is a validation-free prefix
followed by one final validation event. -/
def validateLastOnly {σ : Type} (tr : List (Event σ)) : Prop :=
  validateCount tr = 0 ∨
    ∃ pre s, tr = pre ++ [Event.validate s] ∧ validateCount pre = 0

theorem strDataLe_total (a b : List Char) : strDataLe a b = true ∨ strDataLe b a = true := by
  induction a generalizing b with
  | nil => left; rfl
  | cons x xs ih =>
    cases b with
    | nil => right; rfl
    | cons y ys =>
      by_cases hxy : x = y
      · subst hxy
        rcases ih ys with h | h
        · left; simp [strDataLe, h]
        · right; simp [strDataLe, h]
      · have hne : ¬ y = x := fun h => hxy h.symm
        rcases le_total x y with h | h
        · left; simp [strDataLe, hxy, h]
        · right; simp [strDataLe, hne, h]

theorem strDataLe_trans (a b c : List Char) (hab : strDataLe a b = true)
    (hbc : strDataLe b c = true) : strDataLe a c = true := by
  induction a generalizing b c with
  | nil => rfl
  | cons x xs ih =>
    cases b with
    | nil => simp [strDataLe] at hab
    | cons y ys =>
      cases c with
      | nil => simp [strDataLe] at hbc
      | cons z zs =>
        by_cases hxy : x = y <;> by_cases hyz : y = z
        · subst hxy; subst hyz
          simp only [strDataLe, if_pos rfl] at *
          exact ih ys zs hab hbc
        · subst hxy
          simp only [strDataLe, if_pos rfl, if_neg hyz] at *
          exact hbc
        · subst hyz
          simp only [strDataLe, if_pos rfl, if_neg hxy] at *
          exact hab
        · simp only [strDataLe, if_neg hxy, if_neg hyz, decide_eq_true_eq] at *
          by_cases hxz : x = z
          · subst hxz
            exact absurd (le_antisymm hab hbc) hxy
          · simp only [if_neg hxz, decide_eq_true_eq]
            exact le_trans hab hbc

theorem strLe_total (a b : String) : strLe a b = true ∨ strLe b a = true :=
  strDataLe_total a.data b.data

theorem strLe_trans {a b c : String} (h1 : strLe a b = true) (h2 : strLe b c = true) :
    strLe a c = true :=
  strDataLe_trans a.data b.data c.data h1 h2

instance : IsTotal String (fun a b => strLe a b = true) := ⟨strLe_total⟩

instance : IsTrans String (fun a b => strLe a b = true) :=
  ⟨fun _ _ _ h1 h2 => strLe_trans h1 h2⟩

theorem dedupSort_nodup (ps : List String) : (dedupSort ps).Nodup :=
  (List.perm_insertionSort (fun a b => strLe a b) ps.dedup).nodup_iff.mpr
    (List.nodup_dedup ps)

theorem dedupSort_sorted (ps : List String) :
    List.Sorted (fun a b => strLe a b = true) (dedupSort ps) :=
  List.sorted_insertionSort (fun a b => strLe a b = true) ps.dedup

theorem validateCount_append {σ : Type} (a b : List (Event σ)) :
    validateCount (a ++ b) = validateCount a + validateCount b :=
  List.countP_append _ a b

theorem validateLastOnly_count {σ : Type} {tr : List (Event σ)}
    (h : validateLastOnly tr) : validateCount tr ≤ 1 := by
  rcases h with h | ⟨pre, s, rfl, hpre⟩
  · rw [h]
    exact Nat.zero_le 1
  · rw [validateCount_append, hpre]
    rfl

theorem validateLastOnly_append {σ : Type} (a b : List (Event σ))
    (ha : validateCount a = 0) (hb : validateLastOnly b) :
    validateLastOnly (a ++ b) := by
  rcases hb with hb | ⟨pre, s, rfl, hpre⟩
  · left
    rw [validateCount_append, ha, hb]
  · right
    refine ⟨a ++ pre, s, by rw [List.append_assoc], ?_⟩
    rw [validateCount_append, ha, hpre]

theorem finishValidate_vlo {σ : Type} (validate : Option (σ → Option GoError))
    (dst : σ) (tr : List (Event σ)) (h : validateCount tr = 0) :
    validateLastOnly (finishValidate validate dst tr).trace := by
  cases validate with
  | none => exact Or.inl h
  | some v => exact Or.inr ⟨tr, dst, rfl, h⟩

theorem parseQuery_vlo {σ : Type} (p : Parser σ)
    (validate : Option (σ → Option GoError)) (r : Request) (dst : σ) :
    validateLastOnly (p.ParseQuery validate r dst).trace := by
  cases hf : p.Form with
  | none =>
    have ht : p.ParseQuery validate r dst = ⟨dst, some errNoFormDecoder, []⟩ := by
      simp [Parser.ParseQuery, Parser.schemaDecode, hf]
    rw [ht]
    exact Or.inl rfl
  | some f =>
    cases hd : f dst r.query with
    | mk dst1 e =>
      cases e with
      | some e0 =>
        have ht : p.ParseQuery validate r dst = ⟨dst1, some e0, [.formDecode r.query]⟩ := by
          simp [Parser.ParseQuery, Parser.schemaDecode, hf, hd]
        rw [ht]
        exact Or.inl rfl
      | none =>
        have ht : p.ParseQuery validate r dst
            = finishValidate validate dst1 [.formDecode r.query] := by
          simp [Parser.ParseQuery, Parser.schemaDecode, hf, hd]
        rw [ht]
        exact finishValidate_vlo validate dst1 [.formDecode r.query] rfl

theorem parseQueryForm_vlo {σ : Type} (p : Parser σ)
    (validate : Option (σ → Option GoError)) (r : Request) (dst : σ) :
    validateLastOnly (p.ParseQueryForm validate r dst).trace := by
  cases hpf : r.parseForm with
  | error e =>
    have ht : p.ParseQueryForm validate r dst = ⟨dst, some e, [.parseForm]⟩ := by
      simp [Parser.ParseQueryForm, hpf]
    rw [ht]
    exact Or.inl rfl
  | ok form =>
    cases hf : p.Form with
    | none =>
      have ht : p.ParseQueryForm validate r dst
          = ⟨dst, some errNoFormDecoder, [.parseForm]⟩ := by
        simp [Parser.ParseQueryForm, Parser.schemaDecode, hpf, hf]
      rw [ht]
      exact Or.inl rfl
    | some f =>
      cases hd : f dst form with
      | mk dst1 e =>
        cases e with
        | some e0 =>
          have ht : p.ParseQueryForm validate r dst
              = ⟨dst1, some e0, [.parseForm, .formDecode form]⟩ := by
            simp [Parser.ParseQueryForm, Parser.schemaDecode, hpf, hf, hd]
          rw [ht]
          exact Or.inl rfl
        | none =>
          have ht : p.ParseQueryForm validate r dst
              = finishValidate validate dst1 [.parseForm, .formDecode form] := by
            simp [Parser.ParseQueryForm, Parser.schemaDecode, hpf, hf, hd]
          rw [ht]
          exact finishValidate_vlo validate dst1 [.parseForm, .formDecode form] rfl

theorem parseJSON_vlo {σ : Type} (stdJSON : JSONUnmarshaler σ) (p : Parser σ)
    (validate : Option (σ → Option GoError)) (r : Request) (dst : σ) :
    validateLastOnly (p.ParseJSON stdJSON validate r dst).trace := by
  cases hb : r.body with
  | error e =>
    have ht : p.ParseJSON stdJSON validate r dst = ⟨dst, some e, [.bodyRead]⟩ := by
      simp [Parser.ParseJSON, hb]
    rw [ht]
    exact Or.inl rfl
  | ok b =>
    by_cases hlen : b.length > 0
    · cases hu : (p.JSON.getD stdJSON) b dst with
      | mk dst1 e =>
        cases e with
        | some e0 =>
          have ht : p.ParseJSON stdJSON validate r dst
              = ⟨dst1, some e0, [.bodyRead, .jsonUnmarshal b]⟩ := by
            simp [Parser.ParseJSON, hb, hlen, hu]
          rw [ht]
          exact Or.inl rfl
        | none =>
          have ht : p.ParseJSON stdJSON validate r dst
              = finishValidate validate dst1 [.bodyRead, .jsonUnmarshal b] := by
            simp [Parser.ParseJSON, hb, hlen, hu]
          rw [ht]
          exact finishValidate_vlo validate dst1 [.bodyRead, .jsonUnmarshal b] rfl
    · have ht : p.ParseJSON stdJSON validate r dst
          = finishValidate validate dst [.bodyRead] := by
        simp [Parser.ParseJSON, hb, hlen]
      rw [ht]
      exact finishValidate_vlo validate dst [.bodyRead] rfl

theorem parseQueryJSON_vlo {σ : Type} (stdJSON : JSONUnmarshaler σ) (p : Parser σ)
    (validate : Option (σ → Option GoError)) (r : Request) (dst : σ) :
    validateLastOnly (p.ParseQueryJSON stdJSON validate r dst).trace := by
  cases hf : p.Form with
  | none =>
    have ht : p.ParseQueryJSON stdJSON validate r dst
        = ⟨dst, some errNoFormDecoder, []⟩ := by
      simp [Parser.ParseQueryJSON, Parser.schemaDecode, hf]
    rw [ht]
    exact Or.inl rfl
  | some f =>
    cases hd : f dst r.query with
    | mk dst1 e =>
      cases e with
      | some e0 =>
        have ht : p.ParseQueryJSON stdJSON validate r dst
            = ⟨dst1, some e0, [.formDecode r.query]⟩ := by
          simp [Parser.ParseQueryJSON, Parser.schemaDecode, hf, hd]
        rw [ht]
        exact Or.inl rfl
      | none =>
        cases hres : p.ParseJSON stdJSON validate r dst1 with
        | mk s2 e2 tr2 =>
          have ht : p.ParseQueryJSON stdJSON validate r dst
              = ⟨s2, e2, .formDecode r.query :: tr2⟩ := by
            simp [Parser.ParseQueryJSON, Parser.schemaDecode, hf, hd, hres]
          rw [ht]
          have h2 := parseJSON_vlo stdJSON p validate r dst1
          rw [hres] at h2
          exact validateLastOnly_append [.formDecode r.query] tr2 rfl h2

/-- Claim C1: for every request whose body reads as zero-length, `ParseJSON`
(both the `Parser` method and the package-level function) performs no
unmarshal call, leaves the target exactly as it was, returns nil unless the
target implements `Validator` and its `Validate` rejects, and `Validate` is
still invoked on the unchanged target. -/
theorem parseJSON_empty_body_noop {σ : Type} (stdJSON : JSONUnmarshaler σ) (p : Parser σ)
    (validate : Option (σ → Option GoError)) (r : Request) (dst : σ)
    (hbody : r.body = .ok "") :
    ((p.ParseJSON stdJSON validate r dst).state = dst ∧
     (∀ b, Event.jsonUnmarshal b ∉ (p.ParseJSON stdJSON validate r dst).trace) ∧
     (validate = none → (p.ParseJSON stdJSON validate r dst).err = none) ∧
     (∀ v, validate = some v → (p.ParseJSON stdJSON validate r dst).err = v dst ∧
       Event.validate dst ∈ (p.ParseJSON stdJSON validate r dst).trace)) ∧
    ((ParseJSON stdJSON validate r dst).state = dst ∧
     (∀ b, Event.jsonUnmarshal b ∉ (ParseJSON stdJSON validate r dst).trace) ∧
     (validate = none → (ParseJSON stdJSON validate r dst).err = none) ∧
     (∀ v, validate = some v → (ParseJSON stdJSON validate r dst).err = v dst ∧
       Event.validate dst ∈ (ParseJSON stdJSON validate r dst).trace)) := by
  cases validate with
  | none =>
    refine ⟨⟨?_, ?_, ?_, ?_⟩, ⟨?_, ?_, ?_, ?_⟩⟩ <;>
      simp [Parser.ParseJSON, ParseJSON, hbody, finishValidate]
  | some v =>
    refine ⟨⟨?_, ?_, ?_, ?_⟩, ⟨?_, ?_, ?_, ?_⟩⟩ <;>
      simp [Parser.ParseJSON, ParseJSON, hbody, finishValidate]

/-- Claim C1 witness: an empty body with an already-populated target (state 7)
leaves the state at 7 and surfaces exactly the validation error. -/
theorem parseJSON_empty_body_noop_witness :
    (Parser.ParseJSON (fun b n => (n + b.length, none)) (⟨none, none, none⟩ : Parser Nat)
      (some (fun n => if n > 2 then some (.basic "too big") else none))
      ⟨[], .ok [], .ok ""⟩ 7).state = 7 ∧
    (Parser.ParseJSON (fun b n => (n + b.length, none)) (⟨none, none, none⟩ : Parser Nat)
      (some (fun n => if n > 2 then some (.basic "too big") else none))
      ⟨[], .ok [], .ok ""⟩ 7).err = some (.basic "too big") ∧
    (ParseJSON (fun b n => (n + b.length, none))
      (some (fun n => if n > 2 then some (.basic "too big") else none))
      ⟨[], .ok [], .ok ""⟩ 7).err = some (.basic "too big") := by
  have h := parseJSON_empty_body_noop (fun b n => (n + b.length, none))
    (⟨none, none, none⟩ : Parser Nat)
    (some (fun n => if n > 2 then some (.basic "too big") else none))
    ⟨[], .ok [], .ok ""⟩ 7 rfl
  refine ⟨h.1.1, ?_, ?_⟩
  · rw [(h.1.2.2.2 _ rfl).1]
    rfl
  · rw [(h.2.2.2.2 _ rfl).1]
    rfl

/-- Claim C2 counterexample: with no Form-Decode capability configured,
`ParseQueryForm` on a request whose form parsing itself fails returns that
parse error, not the no-form-decoder configuration error — so the claim
that every form-decoding operation fails with the configuration error is
false as stated. -/
theorem noFormDecoder_parseFormErr_cex :
    ((⟨none, none, none⟩ : Parser Nat).ParseQueryForm none
      ⟨[], .error (.basic "bad form"), .ok ""⟩ 0).err ≠ some errNoFormDecoder := by
  have h : ((⟨none, none, none⟩ : Parser Nat).ParseQueryForm none
      ⟨[], .error (.basic "bad form"), .ok ""⟩ 0).err = some (.basic "bad form") := rfl
  rw [h]
  simp [errNoFormDecoder]

/-- Claim C2 (amended): with `Form` nil, `ParseQuery` and `ParseQueryJSON`
fail with the no-form-decoder configuration error, and so does
`ParseQueryForm` provided the request's own form parsing succeeds (if that
parsing fails, its error is returned instead); in every case the target is
left exactly as it was and neither the decoder nor `Validate` is invoked
(the traces contain no decode or validate events). -/
theorem noFormDecoder_fails {σ : Type} (stdJSON : JSONUnmarshaler σ) (p : Parser σ)
    (validate : Option (σ → Option GoError)) (r : Request) (dst : σ)
    (hform : p.Form = none) :
    p.ParseQuery validate r dst = ⟨dst, some errNoFormDecoder, []⟩ ∧
    p.ParseQueryJSON stdJSON validate r dst = ⟨dst, some errNoFormDecoder, []⟩ ∧
    (∀ form, r.parseForm = .ok form →
      p.ParseQueryForm validate r dst = ⟨dst, some errNoFormDecoder, [.parseForm]⟩) ∧
    (∀ e, r.parseForm = .error e →
      p.ParseQueryForm validate r dst = ⟨dst, some e, [.parseForm]⟩) := by
  refine ⟨?_, ?_, ?_, ?_⟩
  · simp [Parser.ParseQuery, Parser.schemaDecode, hform]
  · simp [Parser.ParseQueryJSON, Parser.schemaDecode, hform]
  · intro form hf
    simp [Parser.ParseQueryForm, Parser.schemaDecode, hform, hf]
  · intro e hf
    simp [Parser.ParseQueryForm, hf]

/-- Claim C2 witness: a concrete Parser with `Form` nil, on a request whose
form parsing succeeds, leaves the target at 5, returns the configuration
error, and records no decode or validate event. -/
theorem noFormDecoder_fails_witness :
    ((⟨none, none, none⟩ : Parser Nat).ParseQuery
      (some (fun _ => some (.basic "vErr"))) ⟨[("i", ["9"])], .ok [], .ok "x"⟩ 5)
      = ⟨5, some errNoFormDecoder, []⟩ ∧
    ((⟨none, none, none⟩ : Parser Nat).ParseQueryForm
      (some (fun _ => some (.basic "vErr"))) ⟨[("i", ["9"])], .ok [], .ok "x"⟩ 5)
      = ⟨5, some errNoFormDecoder, [.parseForm]⟩ := by
  have h := noFormDecoder_fails (fun b n => (n, none)) (⟨none, none, none⟩ : Parser Nat)
    (some (fun _ => some (.basic "vErr"))) ⟨[("i", ["9"])], .ok [], .ok "x"⟩ 5 rfl
  exact ⟨h.1, h.2.2.1 [] rfl⟩

/-- Claim C3: `ParseQueryJSON` applies the Form-Decode capability to the URL
query values first; if that step fails its error is returned and the body
is never read, and if it succeeds the rest of the call is exactly
`ParseJSON` run on the query-decoded target (so JSON values can overwrite
query-decoded fields). -/
theorem parseQueryJSON_query_first {σ : Type} (stdJSON : JSONUnmarshaler σ)
    (p : Parser σ) (f : FormDecoder σ) (validate : Option (σ → Option GoError))
    (r : Request) (dst : σ) (hform : p.Form = some f) :
    (∀ dst1 e, f dst r.query = (dst1, some e) →
      p.ParseQueryJSON stdJSON validate r dst = ⟨dst1, some e, [.formDecode r.query]⟩ ∧
      Event.bodyRead ∉ (p.ParseQueryJSON stdJSON validate r dst).trace) ∧
    (∀ dst1, f dst r.query = (dst1, none) →
      p.ParseQueryJSON stdJSON validate r dst =
        ⟨(p.ParseJSON stdJSON validate r dst1).state,
         (p.ParseJSON stdJSON validate r dst1).err,
         .formDecode r.query :: (p.ParseJSON stdJSON validate r dst1).trace⟩) := by
  constructor
  · intro dst1 e h
    have he : p.ParseQueryJSON stdJSON validate r dst
        = ⟨dst1, some e, [.formDecode r.query]⟩ := by
      simp [Parser.ParseQueryJSON, Parser.schemaDecode, hform, h]
    refine ⟨he, ?_⟩
    rw [he]
    simp
  · intro dst1 h
    simp only [Parser.ParseQueryJSON, Parser.schemaDecode, hform, h]
    cases hres : p.ParseJSON stdJSON validate r dst1 with
    | mk s e tr => simp

/-- Claim C3 witness: a failing query decode returns its error with the body
unread, and a succeeding one is followed by the JSON step on the updated
target (query writes 10, JSON adds the body length 2). -/
theorem parseQueryJSON_query_first_witness :
    Parser.ParseQueryJSON (fun b n => (n + b.length, none))
      (⟨some (fun n _ => (n + 1, some (.basic "conv"))), none, none⟩ : Parser Nat)
      none ⟨[("i", ["9"])], .ok [], .ok "zz"⟩ 0
      = ⟨1, some (.basic "conv"), [.formDecode [("i", ["9"])]]⟩ ∧
    Parser.ParseQueryJSON (fun b n => (n + b.length, none))
      (⟨some (fun n _ => (n + 10, none)), none, none⟩ : Parser Nat)
      none ⟨[("i", ["9"])], .ok [], .ok "zz"⟩ 0
      = ⟨12, none, [.formDecode [("i", ["9"])], .bodyRead, .jsonUnmarshal "zz"]⟩ := by
  have h1 := (parseQueryJSON_query_first (fun b n => (n + b.length, none))
    (⟨some (fun n _ => (n + 1, some (.basic "conv"))), none, none⟩ : Parser Nat)
    (fun n _ => (n + 1, some (.basic "conv"))) none ⟨[("i", ["9"])], .ok [], .ok "zz"⟩ 0
    rfl).1 1 (.basic "conv") rfl
  have h2 := (parseQueryJSON_query_first (fun b n => (n + b.length, none))
    (⟨some (fun n _ => (n + 10, none)), none, none⟩ : Parser Nat)
    (fun n _ => (n + 10, none)) none ⟨[("i", ["9"])], .ok [], .ok "zz"⟩ 0 rfl).2 10 rfl
  refine ⟨h1.1, ?_⟩
  rw [h2]
  rfl

/-- Claim C4: for every parse operation of the `Parser` and every input, the
trace validates at most once and only as the very last step (after every
decode step of the call), and each decode-step failure mode — missing form
decoder, failing request form parse, failing Form-Decode invocation,
failing body read, failing JSON unmarshal on a non-empty body — implies
`Validate` is never invoked in that call. -/
theorem validate_once_after_decodes {σ : Type} (stdJSON : JSONUnmarshaler σ)
    (p : Parser σ) (validate : Option (σ → Option GoError)) (r : Request) (dst : σ) :
    (validateLastOnly (p.ParseQuery validate r dst).trace ∧
     validateCount (p.ParseQuery validate r dst).trace ≤ 1) ∧
    (validateLastOnly (p.ParseQueryForm validate r dst).trace ∧
     validateCount (p.ParseQueryForm validate r dst).trace ≤ 1) ∧
    (validateLastOnly (p.ParseJSON stdJSON validate r dst).trace ∧
     validateCount (p.ParseJSON stdJSON validate r dst).trace ≤ 1) ∧
    (validateLastOnly (p.ParseQueryJSON stdJSON validate r dst).trace ∧
     validateCount (p.ParseQueryJSON stdJSON validate r dst).trace ≤ 1) ∧
    (p.Form = none →
      validateCount (p.ParseQuery validate r dst).trace = 0 ∧
      validateCount (p.ParseQueryForm validate r dst).trace = 0 ∧
      validateCount (p.ParseQueryJSON stdJSON validate r dst).trace = 0) ∧
    (∀ f dst1 e, p.Form = some f → f dst r.query = (dst1, some e) →
      validateCount (p.ParseQuery validate r dst).trace = 0 ∧
      validateCount (p.ParseQueryJSON stdJSON validate r dst).trace = 0) ∧
    (∀ e, r.parseForm = .error e →
      validateCount (p.ParseQueryForm validate r dst).trace = 0) ∧
    (∀ form f dst1 e, r.parseForm = .ok form → p.Form = some f →
      f dst form = (dst1, some e) →
      validateCount (p.ParseQueryForm validate r dst).trace = 0) ∧
    (∀ e, r.body = .error e →
      validateCount (p.ParseJSON stdJSON validate r dst).trace = 0 ∧
      validateCount (p.ParseQueryJSON stdJSON validate r dst).trace = 0) ∧
    (∀ b dst1 e, r.body = .ok b → b.length > 0 →
      (p.JSON.getD stdJSON) b dst = (dst1, some e) →
      validateCount (p.ParseJSON stdJSON validate r dst).trace = 0) ∧
    (∀ f dstq b dst1 e, p.Form = some f → f dst r.query = (dstq, none) →
      r.body = .ok b → b.length > 0 →
      (p.JSON.getD stdJSON) b dstq = (dst1, some e) →
      validateCount (p.ParseQueryJSON stdJSON validate r dst).trace = 0) := by
  refine ⟨⟨parseQuery_vlo p validate r dst,
            validateLastOnly_count (parseQuery_vlo p validate r dst)⟩,
          ⟨parseQueryForm_vlo p validate r dst,
            validateLastOnly_count (parseQueryForm_vlo p validate r dst)⟩,
          ⟨parseJSON_vlo stdJSON p validate r dst,
            validateLastOnly_count (parseJSON_vlo stdJSON p validate r dst)⟩,
          ⟨parseQueryJSON_vlo stdJSON p validate r dst,
            validateLastOnly_count (parseQueryJSON_vlo stdJSON p validate r dst)⟩,
          ?_, ?_, ?_, ?_, ?_, ?_, ?_⟩
  · intro hf
    refine ⟨?_, ?_, ?_⟩
    · have ht : p.ParseQuery validate r dst = ⟨dst, some errNoFormDecoder, []⟩ := by
        simp [Parser.ParseQuery, Parser.schemaDecode, hf]
      rw [ht]
      rfl
    · cases hpf : r.parseForm with
      | error e =>
        have ht : p.ParseQueryForm validate r dst = ⟨dst, some e, [.parseForm]⟩ := by
          simp [Parser.ParseQueryForm, hpf]
        rw [ht]
        rfl
      | ok form =>
        have ht : p.ParseQueryForm validate r dst
            = ⟨dst, some errNoFormDecoder, [.parseForm]⟩ := by
          simp [Parser.ParseQueryForm, Parser.schemaDecode, hpf, hf]
        rw [ht]
        rfl
    · have ht : p.ParseQueryJSON stdJSON validate r dst
          = ⟨dst, some errNoFormDecoder, []⟩ := by
        simp [Parser.ParseQueryJSON, Parser.schemaDecode, hf]
      rw [ht]
      rfl
  · intro f dst1 e hf hd
    constructor
    · have ht : p.ParseQuery validate r dst = ⟨dst1, some e, [.formDecode r.query]⟩ := by
        simp [Parser.ParseQuery, Parser.schemaDecode, hf, hd]
      rw [ht]
      rfl
    · have ht : p.ParseQueryJSON stdJSON validate r dst
          = ⟨dst1, some e, [.formDecode r.query]⟩ := by
        simp [Parser.ParseQueryJSON, Parser.schemaDecode, hf, hd]
      rw [ht]
      rfl
  · intro e hpf
    have ht : p.ParseQueryForm validate r dst = ⟨dst, some e, [.parseForm]⟩ := by
      simp [Parser.ParseQueryForm, hpf]
    rw [ht]
    rfl
  · intro form f dst1 e hpf hf hd
    have ht : p.ParseQueryForm validate r dst
        = ⟨dst1, some e, [.parseForm, .formDecode form]⟩ := by
      simp [Parser.ParseQueryForm, Parser.schemaDecode, hpf, hf, hd]
    rw [ht]
    rfl
  · intro e hb
    constructor
    · have ht : p.ParseJSON stdJSON validate r dst = ⟨dst, some e, [.bodyRead]⟩ := by
        simp [Parser.ParseJSON, hb]
      rw [ht]
      rfl
    · cases hf : p.Form with
      | none =>
        have ht : p.ParseQueryJSON stdJSON validate r dst
            = ⟨dst, some errNoFormDecoder, []⟩ := by
          simp [Parser.ParseQueryJSON, Parser.schemaDecode, hf]
        rw [ht]
        rfl
      | some f =>
        cases hd : f dst r.query with
        | mk dstq eq =>
          cases eq with
          | some e0 =>
            have ht : p.ParseQueryJSON stdJSON validate r dst
                = ⟨dstq, some e0, [.formDecode r.query]⟩ := by
              simp [Parser.ParseQueryJSON, Parser.schemaDecode, hf, hd]
            rw [ht]
            rfl
          | none =>
            have hj : p.ParseJSON stdJSON validate r dstq = ⟨dstq, some e, [.bodyRead]⟩ := by
              simp [Parser.ParseJSON, hb]
            have ht : p.ParseQueryJSON stdJSON validate r dst
                = ⟨dstq, some e, [.formDecode r.query, .bodyRead]⟩ := by
              simp [Parser.ParseQueryJSON, Parser.schemaDecode, hf, hd, hj]
            rw [ht]
            rfl
  · intro b dst1 e hb hlen hu
    have ht : p.ParseJSON stdJSON validate r dst
        = ⟨dst1, some e, [.bodyRead, .jsonUnmarshal b]⟩ := by
      simp [Parser.ParseJSON, hb, hlen, hu]
    rw [ht]
    rfl
  · intro f dstq b dst1 e hf hd hb hlen hu
    have hj : p.ParseJSON stdJSON validate r dstq
        = ⟨dst1, some e, [.bodyRead, .jsonUnmarshal b]⟩ := by
      simp [Parser.ParseJSON, hb, hlen, hu]
    have ht : p.ParseQueryJSON stdJSON validate r dst
        = ⟨dst1, some e, [.formDecode r.query, .bodyRead, .jsonUnmarshal b]⟩ := by
      simp [Parser.ParseQueryJSON, Parser.schemaDecode, hf, hd, hj]
    rw [ht]
    rfl

/-- Claim C4 witness: on a concrete successful `ParseQuery` call the trace
validates at most once, and on a concrete call whose form decode fails the
trace contains no validation at all. -/
theorem validate_once_after_decodes_witness :
    validateCount ((⟨some (fun n _ => (n + 1, none)), none, none⟩ : Parser Nat).ParseQuery
      (some (fun _ => none)) ⟨[("i", ["9"])], .ok [], .ok "x"⟩ 0).trace ≤ 1 ∧
    validateCount ((⟨some (fun n _ => (n + 1, some (.basic "conv"))), none,
        none⟩ : Parser Nat).ParseQuery
      (some (fun _ => none)) ⟨[("i", ["9"])], .ok [], .ok "x"⟩ 0).trace = 0 := by
  refine ⟨(validate_once_after_decodes (fun b n => (n, none))
    (⟨some (fun n _ => (n + 1, none)), none, none⟩ : Parser Nat)
    (some (fun _ => none)) ⟨[("i", ["9"])], .ok [], .ok "x"⟩ 0).1.2, ?_⟩
  exact ((validate_once_after_decodes (fun b n => (n, none))
    (⟨some (fun n _ => (n + 1, some (.basic "conv"))), none, none⟩ : Parser Nat)
    (some (fun _ => none)) ⟨[("i", ["9"])], .ok [], .ok "x"⟩ 0).2.2.2.2.2.1
    (fun n _ => (n + 1, some (.basic "conv"))) 1 (.basic "conv") rfl rfl).1

/-- Claim C5: when the wrapping tree contains a `Parameters`-capable error,
`ParametersFromErr` returns exactly the first such error's names (under the
defined traversal), deduplicated and sorted, and nothing else is merged in
— the result is independent of every other node and of the configured
fallback extractor. -/
theorem parametersFromErr_first_parms {σ : Type} (p : Parser σ) (e : GoError)
    (ps : List String) (h : findParms e = some ps) :
    p.ParametersFromErr (some e) = dedupSort ps ∧
    (p.ParametersFromErr (some e)).Nodup ∧
    List.Sorted (fun a b => strLe a b = true) (p.ParametersFromErr (some e)) := by
  have he : p.ParametersFromErr (some e) = dedupSort ps := by
    simp [Parser.ParametersFromErr, h]
  exact ⟨he, he ▸ dedupSort_nodup ps, he ▸ dedupSort_sorted ps⟩

/-- Claim C5 witness: a tree holding a `Parameter`-capable sibling before a
`Parameters`-capable one, under a parser that even has a fallback
configured, yields exactly the deduplicated sorted names of the
`Parameters` node. -/
theorem parametersFromErr_first_parms_witness :
    findParms (.wrap "x" [.parmErr "z", .parmsErr ["a", "c", "b", "a"]])
      = some ["a", "c", "b", "a"] ∧
    (⟨none, none, some (fun _ => ["q"])⟩ : Parser Nat).ParametersFromErr
      (some (.wrap "x" [.parmErr "z", .parmsErr ["a", "c", "b", "a"]])) = ["a", "b", "c"] := by
  refine ⟨by decide, ?_⟩
  have h := parametersFromErr_first_parms (⟨none, none, some (fun _ => ["q"])⟩ : Parser Nat)
    (.wrap "x" [.parmErr "z", .parmsErr ["a", "c", "b", "a"]]) ["a", "c", "b", "a"] (by decide)
  rw [h.1]
  decide

/-- Claim C6 counterexample: `parmErr ""` exposes the `Parameter` capability
(and no `Parameters` capability is present), yet `ParametersFromErr`
returns the empty result, not the one-element result `[""]` the claim
promises — matching the `parmErr{""}` row of `TestParametersFromErr`. -/
theorem parametersFromErr_empty_parm_cex :
    findParms (.parmErr "") = none ∧ findParm (.parmErr "") = some "" ∧
    (⟨none, none, none⟩ : Parser Nat).ParametersFromErr (some (.parmErr "")) = [] ∧
    (⟨none, none, none⟩ : Parser Nat).ParametersFromErr (some (.parmErr "")) ≠ [""] := by
  refine ⟨by decide, by decide, by decide, by decide⟩

/-- Claim C6 (amended): when the tree exposes no `Parameters` capability and
its first `Parameter`-capable error carries name `s`, `ParametersFromErr`
returns the one-element result `[s]` provided `s` is non-empty; if `s` is
the empty string, the result is empty. -/
theorem parametersFromErr_first_parm {σ : Type} (p : Parser σ) (e : GoError) (s : String)
    (hps : findParms e = none) (hp : findParm e = some s) :
    p.ParametersFromErr (some e) = if s = "" then [] else [s] := by
  simp [Parser.ParametersFromErr, hps, hp]

/-- Claim C6 witness: a wrapped single-name error yields exactly that
one-element result. -/
theorem parametersFromErr_first_parm_witness :
    (⟨none, none, some (fun _ => ["q"])⟩ : Parser Nat).ParametersFromErr
      (some (.wrap "x" [.basic "EOF", .parmErr "a"])) = ["a"] := by
  have h := parametersFromErr_first_parm (⟨none, none, some (fun _ => ["q"])⟩ : Parser Nat)
    (.wrap "x" [.basic "EOF", .parmErr "a"]) "a" (by decide) (by decide)
  rw [h]
  decide

/-- Claim C7: `ParametersFromErr nil` is empty even when a fallback
extractor is configured; on a non-nil error whose tree exposes neither
capability, the configured fallback is applied to the original top-level
error and its result returned verbatim, and with no fallback the result
is empty. -/
theorem parametersFromErr_fallback {σ : Type} (p : Parser σ) (e : GoError)
    (hps : findParms e = none) (hp : findParm e = none) :
    p.ParametersFromErr none = [] ∧
    p.ParametersFromErr (some e) =
      (match p.ParametersExtractor with
       | some fn => fn e
       | none => []) := by
  refine ⟨rfl, ?_⟩
  simp [Parser.ParametersFromErr, hps, hp]

/-- Claim C7 witness: with a fallback returning the unsorted, duplicated
list `["z", "x", "x"]`, a capability-free wrapped error yields exactly that
list verbatim; nil yields empty; and without a fallback the same error
yields empty. -/
theorem parametersFromErr_fallback_witness :
    (⟨none, none, some (fun _ => ["z", "x", "x"])⟩ : Parser Nat).ParametersFromErr none = [] ∧
    (⟨none, none, some (fun _ => ["z", "x", "x"])⟩ : Parser Nat).ParametersFromErr
      (some (.wrap "w" [.basic "EOF"])) = ["z", "x", "x"] ∧
    (⟨none, none, none⟩ : Parser Nat).ParametersFromErr
      (some (.wrap "w" [.basic "EOF"])) = [] := by
  have h1 := parametersFromErr_fallback (⟨none, none, some (fun _ => ["z", "x", "x"])⟩ : Parser Nat)
    (.wrap "w" [.basic "EOF"]) (by decide) (by decide)
  have h2 := parametersFromErr_fallback (⟨none, none, none⟩ : Parser Nat)
    (.wrap "w" [.basic "EOF"]) (by decide) (by decide)
  exact ⟨h1.1, h1.2, h2.2⟩

/-- Claim C8: whenever the underlying form decoder reports a conversion
failure on field key `k` — either directly as a `ConversionError` or inside
a `MultiError` whose first conversion entry has key `k` — the package-level
`schemaDecode` fails with a `ParameterError` wrapping the decoder's error,
and `ParameterFromErr` on that error returns exactly `k`, the external tag
name of the failing field. -/
theorem schemaDecode_conversion_parameter {σ : Type} (fd : FormDecoder σ)
    (vals : Values) (dst dst' : σ) (k : String) :
    (fd dst vals = (dst', some (.schemaConversion k)) →
      schemaDecode fd vals dst = (dst', some (.parameterError k (.schemaConversion k))) ∧
      ParameterFromErr (schemaDecode fd vals dst).2 = k) ∧
    (∀ es, fd dst vals = (dst', some (.schemaMulti es)) → firstConversionKey es = some k →
      schemaDecode fd vals dst = (dst', some (.parameterError k (.schemaMulti es))) ∧
      ParameterFromErr (schemaDecode fd vals dst).2 = k) := by
  constructor
  · intro h
    have he : schemaDecode fd vals dst
        = (dst', some (.parameterError k (.schemaConversion k))) := by
      simp [schemaDecode, h]
    exact ⟨he, by rw [he]; rfl⟩
  · intro es h hk
    have he : schemaDecode fd vals dst
        = (dst', some (.parameterError k (.schemaMulti es))) := by
      simp [schemaDecode, h, hk]
    exact ⟨he, by rw [he]; rfl⟩

/-- Claim C8 witness: concrete decoders reporting a conversion failure on
key `"i"` directly and inside a `MultiError` both produce a
`ParameterError` whose introspected parameter is `"i"`. -/
theorem schemaDecode_conversion_parameter_witness :
    schemaDecode (fun (n : Nat) _ => (n + 1, some (.schemaConversion "i"))) [] 3
      = (4, some (.parameterError "i" (.schemaConversion "i"))) ∧
    ParameterFromErr (schemaDecode (fun (n : Nat) _ =>
        (n + 1, some (.schemaConversion "i"))) [] 3).2 = "i" ∧
    schemaDecode (fun (n : Nat) _ =>
        (n + 1, some (.schemaMulti [.basic "z", .schemaConversion "i"]))) [] 3
      = (4, some (.parameterError "i" (.schemaMulti [.basic "z", .schemaConversion "i"]))) ∧
    ParameterFromErr (schemaDecode (fun (n : Nat) _ =>
        (n + 1, some (.schemaMulti [.basic "z", .schemaConversion "i"]))) [] 3).2 = "i" := by
  have h1 := (schemaDecode_conversion_parameter
    (fun (n : Nat) _ => (n + 1, some (.schemaConversion "i"))) [] 3 4 "i").1 rfl
  have h2 := (schemaDecode_conversion_parameter (fun (n : Nat) _ =>
    (n + 1, some (.schemaMulti [.basic "z", .schemaConversion "i"]))) [] 3 4 "i").2
    [.basic "z", .schemaConversion "i"] rfl rfl
  exact ⟨h1.1, h1.2, h2.1, h2.2⟩

/-- Claim C9: the decode-and-validate pipeline is deterministic — running
the same operation with the same capabilities and the same immutable
request on two equal fresh targets yields structurally equal results
(state, error and trace alike), for all four parse operations. -/
theorem parse_deterministic {σ : Type} (stdJSON : JSONUnmarshaler σ) (p : Parser σ)
    (validate : Option (σ → Option GoError)) (r : Request) (dst1 dst2 : σ)
    (h : dst1 = dst2) :
    p.ParseQuery validate r dst1 = p.ParseQuery validate r dst2 ∧
    p.ParseQueryForm validate r dst1 = p.ParseQueryForm validate r dst2 ∧
    p.ParseJSON stdJSON validate r dst1 = p.ParseJSON stdJSON validate r dst2 ∧
    p.ParseQueryJSON stdJSON validate r dst1 = p.ParseQueryJSON stdJSON validate r dst2 := by
  subst h
  exact ⟨rfl, rfl, rfl, rfl⟩

/-- Claim C9 witness: two runs of a concrete `ParseQuery` on two fresh
zero targets agree, and the common decoded state evaluates to 1. -/
theorem parse_deterministic_witness :
    Parser.ParseQuery (⟨some (fun n vals => (n + vals.length, none)), none, none⟩ : Parser Nat)
        none ⟨[("s", ["a"])], .ok [], .ok ""⟩ 0
      = Parser.ParseQuery (⟨some (fun n vals => (n + vals.length, none)), none, none⟩ : Parser Nat)
        none ⟨[("s", ["a"])], .ok [], .ok ""⟩ 0 ∧
    (Parser.ParseQuery (⟨some (fun n vals => (n + vals.length, none)), none, none⟩ : Parser Nat)
        none ⟨[("s", ["a"])], .ok [], .ok ""⟩ 0).state = 1 := by
  refine ⟨(parse_deterministic (fun b n => (n, none)) _ none _ 0 0 rfl).1, rfl⟩

/-- Claim C10: the package-level `ParameterFromErr` returns the stored
parameter name exactly when its argument is the concrete `ParameterError`
value type, and returns the empty string for nil, for a `*ParameterError`
pointer, for an error merely wrapping a `ParameterError`, and in general
for every error that is not a `ParameterError` value — it never unwraps. -/
theorem parameterFromErr_concrete_only :
    (∀ (p : String) (e : GoError), ParameterFromErr (some (.parameterError p e)) = p) ∧
    ParameterFromErr none = "" ∧
    (∀ (p : String) (e : GoError), ParameterFromErr (some (.ptrParameterError p e)) = "") ∧
    (∀ (msg p : String) (e : GoError),
      ParameterFromErr (some (.wrap msg [.parameterError p e])) = "") ∧
    (∀ (err : GoError), (∀ (p : String) (e : GoError), err ≠ .parameterError p e) →
      ParameterFromErr (some err) = "") := by
  refine ⟨fun p e => rfl, rfl, fun p e => rfl, fun msg p e => rfl, ?_⟩
  intro err h
  cases err with
  | parameterError p e => exact absurd rfl (h p e)
  | _ => rfl

/-- Claim C10 witness: a pointer-typed `*ParameterError` yields the empty
string while the value-typed `ParameterError` yields its parameter. -/
theorem parameterFromErr_concrete_only_witness :
    ParameterFromErr (some (.ptrParameterError "x" (.basic "m"))) = "" ∧
    ParameterFromErr (some (.parameterError "x" (.basic "m"))) = "x" :=
  ⟨parameterFromErr_concrete_only.2.2.2.2 (.ptrParameterError "x" (.basic "m"))
    (fun p e h => GoError.noConfusion h),
   parameterFromErr_concrete_only.1 "x" (.basic "m")⟩

end Httpparms
